import Mathlib

/-!
Verification development for the `graph-annotator` file-record store
(`src/file-upload/index.js`).

The JavaScript module is shallowly embedded: the IndexedDB database is an
association list of named object stores, each store a key-ordered association
list of records plus a flag recording whether its unique `nameIndex` exists;
every asynchronous storage primitive is modelled by explicit state passing, and
fallible operations return `Except`.  Machine numbers are modelled by `Nat`
(sizes, counters) and `Int` (offsets, limits, comparator results); none of the
embedded arithmetic can overflow a JavaScript double for the ranges involved.
-/

/-- A browser `File` object as seen by the upload pipeline: its metadata plus
the text produced by `readFile` (the `FileReader.readAsText` collaborator). -/
structure JSFile where
  name : String
  size : Nat
  type : String
  lastModified : Int
  content : String
deriving DecidableEq, Repr

/-- The stored record built by `uploadFile`: `{name, size, type, lastModified,
data: file, annotationCount: 0}`.  The `data` field holds the whole `File`
object. -/
structure Upload where
  name : String
  size : Nat
  type : String
  lastModified : Int
  data : JSFile
  annotationCount : Nat
deriving DecidableEq, Repr

/-- The record `uploadFile` initially assembles from a file, before any
collision rename (`annotationCount` starts at 0). -/
def mkUpload (f : JSFile) : Upload :=
  { name := f.name, size := f.size, type := f.type,
    lastModified := f.lastModified, data := f, annotationCount := 0 }

/-- Strict code-point order on character lists: the order IndexedDB uses for
string primary keys (code-unit order; identical on the ASCII keys used here). -/
def ltChars : List Char → List Char → Bool
  | [], [] => false
  | [], _ :: _ => true
  | _ :: _, [] => false
  | a :: as, b :: bs => a < b || (a == b && ltChars as bs)

/-- An IndexedDB object store: its records as a `(primaryKey, value)` list kept
in ascending key order, plus whether the unique index `nameIndex` on the `name`
property exists (`uploadFile`'s upgrade path creates it, `fetchFileByName`'s
does not). -/
structure ObjectStore where
  hasNameIndex : Bool
  records : List (String × Upload)
deriving DecidableEq, Repr

/-- An IndexedDB database: named object stores. -/
abbrev Database := List (String × ObjectStore)

/-- Embeds `db.objectStoreNames.contains` / fetching a store handle: the store with
the given name, if it was ever created. -/
def findStore (db : Database) (storeName : String) : Option ObjectStore :=
  (db.find? (fun p => p.fst == storeName)).map (·.snd)

/-- Embeds `openDB` with an `upgrade` callback that creates the object store: if the
store already exists the open is a no-op, otherwise the upgrade creates it
empty (with the `nameIndex` iff `withIndex`).  Returns the resulting database
together with the store handle. -/
def openStore (db : Database) (storeName : String) (withIndex : Bool) :
    Database × ObjectStore :=
  match findStore db storeName with
  | some s => (db, s)
  | none => (db ++ [(storeName, ⟨withIndex, []⟩)], ⟨withIndex, []⟩)

/-- Replace the named store's contents. -/
def updateStore (db : Database) (storeName : String) (s : ObjectStore) :
    Database :=
  db.map (fun p => if p.fst == storeName then (p.fst, s) else p)

/-- Embeds `store.get(key)`: the value at a primary key. -/
def storeGet (s : ObjectStore) (key : String) : Option Upload :=
  (s.records.find? (fun r => r.fst == key)).map (·.snd)

/-- Insert a record keeping the list in ascending primary-key order, as the
IndexedDB b-tree does. -/
def insertRecord (key : String) (u : Upload) :
    List (String × Upload) → List (String × Upload)
  | [] => [(key, u)]
  | r :: rest =>
      if ltChars key.toList r.fst.toList then (key, u) :: r :: rest
      else r :: insertRecord key u rest

/-- Embeds `store.add(value, key)`: fails (ConstraintError, aborting the transaction)
when the primary key is already present, or when the store's unique
`nameIndex` exists and some record already carries the same `name`. -/
def storeAdd (s : ObjectStore) (key : String) (u : Upload) :
    Option ObjectStore :=
  if s.records.any (fun r => r.fst == key) ||
      (s.hasNameIndex && s.records.any (fun r => r.snd.name == u.name)) then
    none
  else
    some { s with records := insertRecord key u s.records }

/-- Does `hay` contain `needle` as a contiguous run?  This is
`String.prototype.includes` on the underlying character lists. -/
def containsSeq (hay needle : List Char) : Bool :=
  needle.isPrefixOf hay ||
    match hay with
    | [] => false
    | _ :: t => containsSeq t needle

/-- Embeds the test `!searchQuery || upload.name.toLowerCase().includes(searchQuery.toLowerCase())`:
the per-record predicate of the streaming filter.  An absent query is modelled
by the empty string (both are falsy). -/
def nameMatches (searchQuery name : String) : Bool :=
  searchQuery == "" ||
    containsSeq (name.toList.map Char.toLower)
      (searchQuery.toList.map Char.toLower)

/-- The loop body of `filterFiles`: `while (cursor && count < limit)` pushes
the record when it matches, then advances the cursor and increments `count`
(on every scanned record, matching or not). -/
def filterFilesAux (searchQuery : String) (limit : Int) :
    List Upload → Int → List Upload
  | [], _ => []
  | u :: rest, count =>
      if count < limit then
        if nameMatches searchQuery u.name then
          u :: filterFilesAux searchQuery limit rest (count + 1)
        else
          filterFilesAux searchQuery limit rest (count + 1)
      else []

/-- Embeds `filterFiles(cursor, searchQuery, limit)`: the cursor is the store's
records in primary-key order; `count` starts at 0. -/
def filterFiles (records : List Upload) (searchQuery : String) (limit : Int) :
    List Upload :=
  filterFilesAux searchQuery limit records 0

/-- A JavaScript value as it appears in the sort comparator: the dynamic field
access `file[sortField]` yields a number, a string, or (for the opaque `data`
payload and unrecognized field names) a value whose relational comparisons are
all false. -/
inductive JSValue where
  | num (n : Int)
  | str (s : String)
  | undefinedVal
deriving DecidableEq, Repr

/-- Dynamic field access `file[sortField]` on a stored record.  `data` holds a
`File` object: JavaScript relationally compares two of them as equal opaque
primitives (both `<` and `>` are false), exactly the behaviour of `undefinedVal`
below, so it is modelled by `undefinedVal` together with unknown field names. -/
def getField (u : Upload) : String → JSValue
  | "name" => .str u.name
  | "size" => .num u.size
  | "type" => .str u.type
  | "lastModified" => .num u.lastModified
  | "annotationCount" => .num u.annotationCount
  | _ => .undefinedVal

/-- JavaScript `<` on two same-typed comparator operands: numeric order on
numbers, code-point order on strings; comparisons involving the opaque value
are false. -/
def jsLt : JSValue → JSValue → Bool
  | .num a, .num b => a < b
  | .str a, .str b => ltChars a.toList b.toList
  | _, _ => false

/-- The comparator passed to `files.sort`: `-1 / 1 / 0` from `<` and `>` on
`file[sortField]`, with `sortOrder === 'asc'` choosing the direction.  The
`instanceof Date` branch is dead for stored records (no field holds a `Date`),
so it does not appear. -/
def compareFiles (sortField sortOrder : String) (fileA fileB : Upload) : Int :=
  let valA := getField fileA sortField
  let valB := getField fileB sortField
  if sortOrder == "asc" then
    if jsLt valA valB then -1 else if jsLt valB valA then 1 else 0
  else
    if jsLt valB valA then -1 else if jsLt valA valB then 1 else 0

/-- Embeds `sortFiles(files, sortField, sortOrder)`: `Array.prototype.sort` with a
consistent comparator is the stable sort by `comparator ≤ 0`, here realised by
stable insertion sort. -/
def sortFiles (files : List Upload) (sortField sortOrder : String) :
    List Upload :=
  files.insertionSort (fun a b => compareFiles sortField sortOrder a b ≤ 0)

/-- Embeds `Array.prototype.slice(start, end)`: negative indices count from the end,
then both are clamped to `[0, length]`. -/
def jsSlice (files : List Upload) (s e : Int) : List Upload :=
  let len : Int := files.length
  let k := if s < 0 then max (len + s) 0 else min s len
  let fin := if e < 0 then max (len + e) 0 else min e len
  (files.drop k.toNat).take (fin - k).toNat

/-- Embeds `paginateFiles(files, offset, limit)`: clamp a negative offset to 0, cap
`startIndex + limit` at the array length, then `slice`. -/
def paginateFiles (files : List Upload) (offset limit : Int) : List Upload :=
  let startIndex := if offset < 0 then 0 else offset
  let endIndex :=
    if startIndex + limit > (files.length : Int) then (files.length : Int)
    else startIndex + limit
  jsSlice files startIndex endIndex

/-- A character JavaScript `.` matches: anything but a line terminator. -/
def dotChar (c : Char) : Bool := c != '\n' && c != '\r'

/-- A line terminator, after which a multiline `^` matches. -/
def isTerm (c : Char) : Bool := c == '\n' || c == '\r'

/-- Backtracking core of the content regex: having already consumed the first
`.` character, does `.*,[^,]` match a prefix of the remaining input? -/
def findCommaPair : List Char → Bool
  | [] => false
  | [_] => false
  | a :: b :: rest =>
      if a == ',' && b != ',' then true
      else if dotChar a then findCommaPair (b :: rest)
      else false

/-- Does `.+,[^,]` match at this position (which must be a line start)?  The
rest of the pattern, `[^,]*(?:\r?\n|.)*$`, matches any remaining text, so it
imposes no further constraint. -/
def matchHere : List Char → Bool
  | [] => false
  | c :: rest => dotChar c && findCommaPair rest

/-- Try `matchHere` at every line start strictly after the beginning: that is,
immediately after each line terminator. -/
def regexTestFrom : List Char → Bool
  | [] => false
  | c :: rest =>
      if isTerm c then matchHere rest || regexTestFrom rest
      else regexTestFrom rest

/-- Embeds the test `/^.+,[^,]+(?:\r?\n|.)*$/gm.test(fileContent)`: true iff `.+,[^,]+…`
matches at the start of the string or just after some line terminator. -/
def csvFormatTest (cs : List Char) : Bool :=
  matchHere cs || regexTestFrom cs

/-- Embeds `/\.(csv)$/i.test(file.name)`: the lowercased name ends in `.csv`. -/
def extOk (name : String) : Bool :=
  List.isSuffixOf ".csv".toList (name.toList.map Char.toLower)

/-- The upload size cap: `200 * 1024 * 1024` bytes. -/
def maxFileSize : Nat := 200 * 1024 * 1024

/-- Embeds `Math.random().toString(36).substring(2, 5)`: characters 2, 3 and 4 of the
base-36 rendering of the random draw (fewer if the rendering is shorter). -/
def substring25 (s : String) : String :=
  String.mk ((s.toList.drop 2).take 3)

/-- Errors `uploadFile` can reject with: the four validation failures, and the
ConstraintError surfaced when `add` hits an existing primary key or violates
the unique `nameIndex`. -/
inductive UploadError where
  | missingFile
  | oversized
  | badExtension
  | badContent
  | constraintError
deriving DecidableEq, Repr

/-- Embeds `uploadFile(file, …)`.  The absent file argument is `none`; `rnd` is the
string `Math.random().toString(36)` of the draw used if a rename is needed.
Returns the promise outcome together with the database state afterwards (the
upgrade's store creation survives even when `add` aborts the transaction). -/
def uploadFile (file : Option JSFile) (db : Database) (storeName : String)
    (rnd : String) : Except UploadError Upload × Database :=
  match file with
  | none => (.error .missingFile, db)
  | some f =>
      if f.size > maxFileSize then (.error .oversized, db)
      else if !extOk f.name then (.error .badExtension, db)
      else if !csvFormatTest f.content.toList then (.error .badContent, db)
      else
        let db1s := openStore db storeName true
        let db1 := db1s.fst
        let s := db1s.snd
        let upload := mkUpload f
        let upload :=
          if (storeGet s f.name).isSome then
            { upload with name := f.name ++ "-" ++ substring25 rnd }
          else upload
        match storeAdd s upload.name upload with
        | none => (.error .constraintError, db1)
        | some s2 => (.ok upload, updateStore db1 storeName s2)

/-- Errors `fetchFiles` and `fetchFileByName` can fail with: NotFoundError from
opening a transaction on (or reading an index of) a store that does not have
the requested pieces. -/
inductive LookupError where
  | notFoundError
deriving DecidableEq, Repr

/-- Embeds `fetchFiles(…)`: open the database (no upgrade callback, so a missing
store makes the transaction throw NotFoundError), stream the records through
`filterFiles` with bound `limit + offset`, sort when `sortField` is truthy
(absent/falsy is modelled by the empty string), then paginate. -/
def fetchFiles (db : Database) (storeName searchQuery sortField sortOrder :
    String) (offset limit : Int) : Except LookupError (List Upload) :=
  match findStore db storeName with
  | none => .error .notFoundError
  | some s =>
      let files := filterFiles (s.records.map (·.snd)) searchQuery
        (limit + offset)
      let files :=
        if sortField == "" then files
        else sortFiles files sortField sortOrder
      .ok (paginateFiles files offset limit)

/-- Embeds `getKeys(dbName, dbVersion, objectStoreName)`: empty when the store was
never created (`objectStoreNames.contains` guard), otherwise `getAllKeys` —
all primary keys in store order. -/
def getKeys (db : Database) (storeName : String) : List String :=
  match findStore db storeName with
  | none => []
  | some s => s.records.map (·.fst)

/-- Embeds `fetchFileByName(name, \x7b…\x7d)`: a falsy name returns `undefined` at once
(modelled, like the `null` miss result, by `none`); otherwise open the
database with the upgrade path that creates the store WITHOUT `nameIndex`,
then read `index('nameIndex')` — which throws NotFoundError when the index
does not exist — and `get(name)` on it. -/
def fetchFileByName (name : String) (db : Database) (storeName : String) :
    Except LookupError (Option Upload) × Database :=
  if name == "" then (.ok none, db)
  else
    let db1s := openStore db storeName false
    let db1 := db1s.fst
    let s := db1s.snd
    if !s.hasNameIndex then (.error .notFoundError, db1)
    else
      ((Except.ok ((s.records.find? (fun r => r.snd.name == name)).map
        (·.snd))), db1)

/-- Claim-language helper (C1): the records a scan would visit before having
collected `k` records satisfying the query — the shortest prefix of the store
containing `k` matches, or the whole store if fewer exist. -/
def takeUntilMatches (searchQuery : String) : Nat → List Upload → List Upload
  | _, [] => []
  | 0, _ :: _ => []
  | k + 1, u :: rest =>
      u :: (if nameMatches searchQuery u.name then
              takeUntilMatches searchQuery k rest
            else takeUntilMatches searchQuery (k + 1) rest)

/-- Claim-language helper (C2): split text into lines at `'\n'`. -/
def splitLines : List Char → List (List Char)
  | [] => [[]]
  | c :: rest =>
      if c == '\n' then [] :: splitLines rest
      else
        match splitLines rest with
        | [] => [[c]]
        | l :: ls => (c :: l) :: ls

/-- Claim-language helper (C2): the line has a comma separating a non-empty
prefix from a non-empty, comma-free value, i.e. its last comma is neither the
first nor the last character. -/
def lineHasGoodComma (line : List Char) : Bool :=
  let r := line.reverse
  let v := r.takeWhile (fun c => c != ',')
  match r.dropWhile (fun c => c != ',') with
  | _ :: _ :: _ => !v.isEmpty
  | _ => false

/-- Claim-language predicate (C2): some line lacks a comma separating a
non-empty prefix from a non-empty comma-free value. -/
def claimBadContent (content : String) : Bool :=
  (splitLines content.toList).any (fun l => !lineHasGoodComma l)

/-- A lowercase base-36 digit. -/
def isBase36 (c : Char) : Bool :=
  ('0' ≤ c && c ≤ '9') || ('a' ≤ c && c ≤ 'z')

/-- The strings `Math.random().toString(36)` can produce for a draw in
`[0, 1)`: `"0"` (for the draw 0 and for draws printed with no fraction) or
`"0."` followed by lowercase base-36 digits. -/
def isRandomBase36Repr (s : String) : Bool :=
  match s.toList with
  | ['0'] => true
  | '0' :: '.' :: ds => !ds.isEmpty && ds.all isBase36
  | _ => false

/-- Claim-language predicate (C3): `renamed` is `orig` followed by a hyphen
and EXACTLY three lowercase base-36 characters. -/
def hasThreeCharSuffix (orig renamed : String) : Bool :=
  (renamed.toList.take orig.toList.length == orig.toList) &&
    (match renamed.toList.drop orig.toList.length with
     | '-' :: s => s.length == 3 && s.all isBase36
     | _ => false)

/-- Claim-language predicate (C2, amended): some line of the text — a segment
starting at the beginning of the string or right after a line terminator —
consists of one or more plain (non-terminator) characters, then a comma, then
at least one non-comma character.  This is exactly what the multiline regex
can match somewhere in the content. -/
def claimMatchableContent (cs : List Char) : Prop :=
  (∃ mid c post, cs = mid ++ ',' :: c :: post ∧ mid ≠ [] ∧
    (∀ x ∈ mid, dotChar x = true) ∧ c ≠ ',') ∨
  (∃ pre t mid c post, cs = pre ++ t :: (mid ++ ',' :: c :: post) ∧
    isTerm t = true ∧ mid ≠ [] ∧ (∀ x ∈ mid, dotChar x = true) ∧ c ≠ ',')

/-- Claim-language predicate (C6): the store holds a record stored under the
given name — either as its primary key or in its `name` field (the two always
coincide for records written by `uploadFile`). -/
def hasRecordNamed (db : Database) (storeName n : String) : Bool :=
  match findStore db storeName with
  | none => false
  | some s =>
      s.records.any (fun r => r.fst == n) ||
        s.records.any (fun r => r.snd.name == n)

/-- A concrete well-formed CSV file, used to instantiate theorems. -/
def demoFile : JSFile :=
  { name := "speed.csv", size := 41, type := "text/csv", lastModified := 1,
    content := "timestamp,speedometer_x,speedometer_y\n1,2,3\n" }

/-- A concrete stored record with a chosen name and size, used to instantiate
theorems. -/
def demoUpload (n : String) (sz : Nat) : Upload :=
  { name := n, size := sz, type := "text/csv", lastModified := 0,
    data := demoFile, annotationCount := 0 }

/-- The database after uploading `demoFile` into an empty database. -/
def demoDb1 : Database :=
  (uploadFile (some demoFile) [] "csv-store" "0.abc").snd

/-- The record produced by uploading `demoFile` a second time with the random
draw rendered as `"0.xyz"`. -/
def demoUpload2 : Upload :=
  { mkUpload demoFile with name := "speed.csv" ++ "-" ++ substring25 "0.xyz" }

/-- The database after the second upload of `demoFile`. -/
def demoDb2 : Database :=
  (uploadFile (some demoFile) demoDb1 "csv-store" "0.xyz").snd

/-- A CSV-named file whose first line is well-formed but whose second line
`"xxx"` contains no comma. -/
def badLineFile : JSFile :=
  { name := "a.csv", size := 10, type := "text/csv", lastModified := 0,
    content := "a,b\nxxx" }

/-- Decidable equality for promise outcomes, so that concrete runs of the
embedded operations can be checked by evaluation. -/
instance {e a : Type} [DecidableEq e] [DecidableEq a] :
    DecidableEq (Except e a) := fun x y =>
  match x, y with
  | .ok u, .ok v =>
      if h : u = v then isTrue (by rw [h]) else isFalse (by simp [h])
  | .error u, .error v =>
      if h : u = v then isTrue (by rw [h]) else isFalse (by simp [h])
  | .ok _, .error _ => isFalse (by simp)
  | .error _, .ok _ => isFalse (by simp)

/-! ### Basic facts about the store model -/

theorem mem_insertRecord {k : String} {u : Upload} {rs : List (String × Upload)}
    {r : String × Upload} :
    r ∈ insertRecord k u rs ↔ r = (k, u) ∨ r ∈ rs := by
  induction rs with
  | nil => simp [insertRecord]
  | cons hd tl ih =>
      simp only [insertRecord]
      split
      · simp [List.mem_cons]
      · simp only [List.mem_cons, ih]
        tauto

theorem storeGet_isSome_iff {s : ObjectStore} {k : String} :
    (storeGet s k).isSome = true ↔ ∃ r ∈ s.records, r.fst = k := by
  simp [storeGet, List.find?_isSome, beq_iff_eq]

theorem findStore_cons {hd : String × ObjectStore} {tl : Database}
    {n : String} :
    findStore (hd :: tl) n =
      if hd.fst == n then some hd.snd else findStore tl n := by
  by_cases h : hd.fst == n
  · simp [findStore, List.find?_cons_of_pos, h]
  · simp only [findStore, h, if_neg]
    rw [List.find?_cons_of_neg]
    · simp
    · simpa using h

theorem findStore_append_single {db : Database} {n : String} {s : ObjectStore}
    (h : findStore db n = none) :
    findStore (db ++ [(n, s)]) n = some s := by
  induction db with
  | nil => simp [findStore]
  | cons hd tl ih =>
      rw [List.cons_append, findStore_cons]
      rw [findStore_cons] at h
      split at h
      · exact absurd h (by simp)
      · next hne => rw [if_neg hne]; exact ih h

theorem findStore_openStore (db : Database) (n : String) (w : Bool) :
    findStore (openStore db n w).fst n = some (openStore db n w).snd := by
  unfold openStore
  cases h : findStore db n with
  | some s => simpa using h
  | none => simpa using findStore_append_single h

theorem openStore_of_found {db : Database} {n : String} {s : ObjectStore}
    (h : findStore db n = some s) (w : Bool) :
    openStore db n w = (db, s) := by
  unfold openStore
  rw [h]

theorem findStore_updateStore_self {db : Database} {n : String}
    {s' : ObjectStore} (h : (findStore db n).isSome = true) :
    findStore (updateStore db n s') n = some s' := by
  induction db with
  | nil => simp [findStore] at h
  | cons hd tl ih =>
      rw [findStore_cons] at h
      by_cases hc : hd.fst == n
      · simp only [updateStore, List.map_cons, hc, if_pos]
        rw [findStore_cons]
        simp [hc]
      · simp only [updateStore, List.map_cons, hc, if_neg, Bool.false_eq_true,
          not_false_iff]
        rw [findStore_cons, if_neg (by simpa using hc)]
        rw [if_neg (by simpa using hc)] at h
        exact ih h

theorem storeAdd_some_inv {s : ObjectStore} {k : String} {u : Upload}
    {s2 : ObjectStore} (h : storeAdd s k u = some s2) :
    s2 = { s with records := insertRecord k u s.records } ∧
      s.records.any (fun r => r.fst == k) = false := by
  unfold storeAdd at h
  split at h
  · exact absurd h (by simp)
  · next hcond =>
      refine ⟨(Option.some.inj h).symm, ?_⟩
      have hfalse : (s.records.any (fun r => r.fst == k) ||
          (s.hasNameIndex && s.records.any (fun r => r.snd.name == u.name)))
          = false := Bool.eq_false_iff.mpr hcond
      exact (Bool.or_eq_false_iff.mp hfalse).1

theorem storeAdd_of_no_conflict {s : ObjectStore} {k : String} {u : Upload}
    (h1 : s.records.any (fun r => r.fst == k) = false)
    (h2 : s.records.any (fun r => r.snd.name == u.name) = false) :
    storeAdd s k u = some { s with records := insertRecord k u s.records } := by
  unfold storeAdd
  rw [if_neg]
  simp [h1, h2]

/-! ### Inversion of a successful upload -/

theorem uploadFile_ok_inv {f : JSFile} {db db' : Database} {store rnd : String}
    {u : Upload} (h : uploadFile (some f) db store rnd = (.ok u, db')) :
    u = (if (storeGet (openStore db store true).snd f.name).isSome then
          { mkUpload f with name := f.name ++ "-" ++ substring25 rnd }
        else mkUpload f) ∧
    ∃ s2, storeAdd (openStore db store true).snd u.name u = some s2 ∧
      db' = updateStore (openStore db store true).fst store s2 := by
  simp only [uploadFile] at h
  split at h
  · exact absurd h (by simp)
  split at h
  · exact absurd h (by simp)
  split at h
  · exact absurd h (by simp)
  split at h
  · exact absurd h (by simp)
  next s2 heq =>
    rw [Prod.mk.injEq] at h
    obtain ⟨hu, hdb⟩ := h
    have hu' := (Except.ok.inj hu).symm
    subst hu'
    exact ⟨rfl, s2, heq, hdb.symm⟩

/-! ### The bounded streaming filter counts scanned records, not matches -/

theorem filterFilesAux_eq (searchQuery : String) (limit : Int) :
    ∀ (l : List Upload) (count : Int),
      filterFilesAux searchQuery limit l count =
        (l.take (limit - count).toNat).filter
          (fun u => nameMatches searchQuery u.name) := by
  intro l
  induction l with
  | nil => intro count; simp [filterFilesAux]
  | cons u rest ih =>
      intro count
      simp only [filterFilesAux]
      by_cases hc : count < limit
      · have htn : (limit - count).toNat = (limit - (count + 1)).toNat + 1 := by
          omega
        rw [if_pos hc, htn]
        simp only [List.take_succ_cons, List.filter_cons]
        by_cases hm : nameMatches searchQuery u.name
        · rw [if_pos hm]
          simp [hm, ih]
        · rw [if_neg hm]
          simp only [Bool.eq_false_iff.mpr hm, ih]
          simp
      · have htn : (limit - count).toNat = 0 := by omega
        rw [if_neg hc, htn]
        simp

theorem filterFiles_eq (records : List Upload) (searchQuery : String)
    (limit : Int) :
    filterFiles records searchQuery limit =
      (records.take limit.toNat).filter
        (fun u => nameMatches searchQuery u.name) := by
  have h := filterFilesAux_eq searchQuery limit records 0
  simpa [filterFiles] using h

/-! ### Sorting a two-element list -/

theorem sortFiles_pair (a b : Upload) (sortField sortOrder : String) :
    sortFiles [a, b] sortField sortOrder =
      if compareFiles sortField sortOrder a b ≤ 0 then [a, b] else [b, a] := by
  simp [sortFiles, List.insertionSort, List.orderedInsert]

/-! ### Characterisation of the content regex test -/

theorem findCommaPair_iff (cs : List Char) :
    findCommaPair cs = true ↔
      ∃ mid c post, cs = mid ++ ',' :: c :: post ∧
        (∀ x ∈ mid, dotChar x = true) ∧ c ≠ ',' := by
  induction cs with
  | nil =>
      simp only [findCommaPair, Bool.false_eq_true, false_iff]
      rintro ⟨mid, c, post, h, -, -⟩
      have := congrArg List.length h
      simp at this
      omega
  | cons a tail ih =>
      cases tail with
      | nil =>
          simp only [findCommaPair, Bool.false_eq_true, false_iff]
          rintro ⟨mid, c, post, h, -, -⟩
          have := congrArg List.length h
          simp [List.length_append] at this
          omega
      | cons b rest =>
          simp only [findCommaPair]
          by_cases hab : (a == ',' && b != ',') = true
          · rw [if_pos hab]
            simp only [Bool.and_eq_true, beq_iff_eq, bne_iff_ne] at hab
            simp only [true_iff]
            exact ⟨[], b, rest, by simp [hab.1], by simp, hab.2⟩
          · rw [if_neg hab]
            by_cases hd : dotChar a = true
            · rw [if_pos hd, ih]
              constructor
              · rintro ⟨mid, c, post, heq, hmid, hc⟩
                refine ⟨a :: mid, c, post, by simp [heq], ?_, hc⟩
                intro x hx
                rcases List.mem_cons.mp hx with hx | hx
                · exact hx ▸ hd
                · exact hmid x hx
              · rintro ⟨mid, c, post, heq, hmid, hc⟩
                cases mid with
                | nil =>
                    simp only [List.nil_append, List.cons.injEq] at heq
                    obtain ⟨ha, hb, -⟩ := heq
                    exact absurd (by simp [ha, hb.symm ▸ hc]) hab
                | cons m ms =>
                    simp only [List.cons_append, List.cons.injEq] at heq
                    obtain ⟨ham, htail⟩ := heq
                    refine ⟨ms, c, post, htail, ?_, hc⟩
                    intro x hx
                    exact hmid x (by simp [hx])
            · rw [if_neg hd]
              simp only [Bool.false_eq_true, false_iff]
              rintro ⟨mid, c, post, heq, hmid, hc⟩
              cases mid with
              | nil =>
                  simp only [List.nil_append, List.cons.injEq] at heq
                  exact hd (by rw [heq.1]; decide)
              | cons m ms =>
                  simp only [List.cons_append, List.cons.injEq] at heq
                  exact hd (heq.1 ▸ hmid m (by simp))

theorem matchHere_iff (cs : List Char) :
    matchHere cs = true ↔
      ∃ mid c post, cs = mid ++ ',' :: c :: post ∧ mid ≠ [] ∧
        (∀ x ∈ mid, dotChar x = true) ∧ c ≠ ',' := by
  cases cs with
  | nil =>
      simp only [matchHere, Bool.false_eq_true, false_iff]
      rintro ⟨mid, c, post, h, -, -, -⟩
      have := congrArg List.length h
      simp at this
      omega
  | cons a rest =>
      simp only [matchHere, Bool.and_eq_true, findCommaPair_iff]
      constructor
      · rintro ⟨hd, mid, c, post, heq, hmid, hc⟩
        refine ⟨a :: mid, c, post, by simp [heq], by simp, ?_, hc⟩
        intro x hx
        rcases List.mem_cons.mp hx with hx | hx
        · exact hx ▸ hd
        · exact hmid x hx
      · rintro ⟨mid, c, post, heq, hne, hmid, hc⟩
        cases mid with
        | nil => exact absurd rfl hne
        | cons m ms =>
            simp only [List.cons_append, List.cons.injEq] at heq
            obtain ⟨ham, htail⟩ := heq
            subst ham
            refine ⟨hmid a (by simp), ms, c, post, htail, ?_, hc⟩
            intro x hx
            exact hmid x (by simp [hx])

theorem regexTestFrom_iff (cs : List Char) :
    regexTestFrom cs = true ↔
      ∃ pre t rest, cs = pre ++ t :: rest ∧ isTerm t = true ∧
        matchHere rest = true := by
  induction cs with
  | nil =>
      simp only [regexTestFrom, Bool.false_eq_true, false_iff]
      rintro ⟨pre, t, rest, h, -, -⟩
      have := congrArg List.length h
      simp at this
      omega
  | cons c tail ih =>
      simp only [regexTestFrom]
      by_cases hc : isTerm c = true
      · rw [if_pos hc]
        simp only [Bool.or_eq_true, ih]
        constructor
        · rintro (hm | ⟨pre, t, rest, heq, ht, hmh⟩)
          · exact ⟨[], c, tail, by simp, hc, hm⟩
          · exact ⟨c :: pre, t, rest, by simp [heq], ht, hmh⟩
        · rintro ⟨pre, t, rest, heq, ht, hmh⟩
          cases pre with
          | nil =>
              simp only [List.nil_append, List.cons.injEq] at heq
              exact Or.inl (heq.2 ▸ hmh)
          | cons p ps =>
              simp only [List.cons_append, List.cons.injEq] at heq
              exact Or.inr ⟨ps, t, rest, heq.2, ht, hmh⟩
      · rw [if_neg hc, ih]
        constructor
        · rintro ⟨pre, t, rest, heq, ht, hmh⟩
          exact ⟨c :: pre, t, rest, by simp [heq], ht, hmh⟩
        · rintro ⟨pre, t, rest, heq, ht, hmh⟩
          cases pre with
          | nil =>
              simp only [List.nil_append, List.cons.injEq] at heq
              exact absurd (heq.1 ▸ ht) hc
          | cons p ps =>
              simp only [List.cons_append, List.cons.injEq] at heq
              exact ⟨ps, t, rest, heq.2, ht, hmh⟩

theorem csvFormatTest_iff (cs : List Char) :
    csvFormatTest cs = true ↔ claimMatchableContent cs := by
  simp only [csvFormatTest, Bool.or_eq_true, claimMatchableContent]
  apply or_congr (matchHere_iff cs)
  rw [regexTestFrom_iff]
  constructor
  · rintro ⟨pre, t, rest, heq, ht, hmh⟩
    obtain ⟨mid, c, post, hr, hne, hmid, hcc⟩ := (matchHere_iff rest).mp hmh
    exact ⟨pre, t, mid, c, post, by rw [heq, hr], ht, hne, hmid, hcc⟩
  · rintro ⟨pre, t, mid, c, post, heq, ht, hne, hmid, hcc⟩
    exact ⟨pre, t, mid ++ ',' :: c :: post, heq, ht,
      (matchHere_iff _).mpr ⟨mid, c, post, rfl, hne, hmid, hcc⟩⟩

/-! ### The random-suffix characters -/

theorem repr_drop2_base36 {rnd : String} (h : isRandomBase36Repr rnd = true) :
    ∀ c ∈ rnd.toList.drop 2, isBase36 c = true := by
  intro c hc
  unfold isRandomBase36Repr at h
  cases hml : rnd.toList with
  | nil => rw [hml] at h; simp at h
  | cons a as =>
      rw [hml] at h hc
      cases as with
      | nil => simp at hc
      | cons b bs =>
          rw [List.drop_succ_cons, List.drop_succ_cons, List.drop_zero] at hc
          split at h
          · next heq =>
              have := congrArg List.length heq
              simp at this
          · next ds heq =>
              injection heq with ha heq2
              injection heq2 with hb hbs
              subst hbs
              rw [Bool.and_eq_true] at h
              exact List.all_eq_true.mp h.2 c hc
          · simp at h

/-! ## Claim C1 -/

/-- C1, counterexample.  The streaming filter does NOT keep scanning until
`offset + limit` MATCHING records are collected: `count` is incremented for
every scanned record.  With the store records named "ab" then "aq", the query
"q" and `offset + limit = 1`, the record "aq" matches the query and lies among
the records a scan would visit before one match is collected, yet the filter —
having spent its budget on the non-matching "ab" — returns the empty candidate
set. -/
theorem C1_counterexample :
    nameMatches "q" (demoUpload "aq" 1).name = true ∧
    demoUpload "aq" 1 ∈
      takeUntilMatches "q" 1 [demoUpload "ab" 1, demoUpload "aq" 1] ∧
    demoUpload "aq" 1 ∉ filterFiles [demoUpload "ab" 1, demoUpload "aq" 1] "q" 1
    := by decide

/-- C1, amended.  The bounded streaming filter of `fetchFiles` stops once
`offset + limit` RECORDS have been scanned (matching or not) or the cursor is
exhausted; the pre-sort candidate set is exactly the query-matching records
among the first `offset + limit` records in primary-key order. -/
theorem C1_bounded_scan_candidates (records : List Upload)
    (searchQuery : String) (offset limit : Int) :
    filterFiles records searchQuery (limit + offset) =
      (records.take (limit + offset).toNat).filter
        (fun u => nameMatches searchQuery u.name) :=
  filterFiles_eq records searchQuery (limit + offset)

/-! ## Claim C9 -/

/-- C9.  `getKeys` on a database whose named object store was never created
returns the empty sequence — the `objectStoreNames.contains` guard makes this
a defined result, not an error (the embedding is a total function) — and on an
existing store it returns all primary keys in store order. -/
theorem C9_getKeys_spec (db : Database) (store : String) :
    (findStore db store = none → getKeys db store = []) ∧
    (∀ s, findStore db store = some s →
      getKeys db store = s.records.map Prod.fst) := by
  constructor
  · intro h
    simp [getKeys, h]
  · intro s h
    simp [getKeys, h]

/-- C9, witness: the empty database yields no keys; a one-record store yields
its single primary key. -/
theorem C9_witness :
    getKeys ([] : Database) "csv-store" = [] ∧
    getKeys [("csv-store", ⟨true, [("a.csv", demoUpload "a.csv" 1)]⟩)]
      "csv-store" = ["a.csv"] := by
  refine ⟨(C9_getKeys_spec [] "csv-store").1 rfl, ?_⟩
  have h := (C9_getKeys_spec
    [("csv-store", ⟨true, [("a.csv", demoUpload "a.csv" 1)]⟩)] "csv-store").2
    ⟨true, [("a.csv", demoUpload "a.csv" 1)]⟩ rfl
  simpa using h

/-! ## Claim C8 -/

/-- C8, counterexample.  For a NEGATIVE `limit`, `paginateFiles` is not the
clipped slice `[offset, offset + limit)` (which is empty): `endIndex`
becomes `-1`, and `Array.prototype.slice` interprets a negative end index as
counting from the end of the array, so three records with `offset = 0`,
`limit = -1` yield the first two records instead of none. -/
theorem C8_counterexample :
    paginateFiles [demoUpload "a" 1, demoUpload "b" 2, demoUpload "c" 3]
        0 (-1) = [demoUpload "a" 1, demoUpload "b" 2] ∧
    (([demoUpload "a" 1, demoUpload "b" 2, demoUpload "c" 3].drop
        ((0 : Int)).toNat).take ((-1 : Int)).toNat) = [] := by decide

/-- C8, amended.  A negative `offset` behaves exactly like `offset = 0` (for
every `limit`); and for non-negative `offset` and `limit` the result is the
slice `[offset, offset + limit)` clipped to the input's length.  (For negative
`limit` the JavaScript `slice` end-index wraps, see the counterexample.) -/
theorem C8_paginate_amended (files : List Upload) (offset limit : Int) :
    (offset < 0 → paginateFiles files offset limit =
      paginateFiles files 0 limit) ∧
    (0 ≤ offset → 0 ≤ limit →
      paginateFiles files offset limit =
        (files.drop offset.toNat).take limit.toNat) := by
  constructor
  · intro h
    simp only [paginateFiles]
    rw [if_pos h, if_neg (lt_irrefl (0 : Int))]
  · intro h0 hl
    simp only [paginateFiles, jsSlice]
    rw [if_neg (not_lt.mpr h0)]
    have hlen : (0 : Int) ≤ (files.length : Int) := Int.natCast_nonneg _
    have hE : (if offset + limit > (files.length : Int) then
        (files.length : Int) else offset + limit) =
        min (offset + limit) (files.length : Int) := by
      split <;> omega
    rw [hE]
    rw [if_neg (by omega : ¬ offset < 0)]
    rw [if_neg (by omega : ¬ min (offset + limit) (files.length : Int) < 0)]
    rcases le_or_lt offset (files.length : Int) with hcase | hcase
    · have hk : min offset (files.length : Int) = offset := min_eq_left hcase
      have hmin2 : min (min (offset + limit) (files.length : Int))
          (files.length : Int) = min (offset + limit) (files.length : Int) :=
        min_eq_left (min_le_right _ _)
      rw [hk, hmin2]
      rw [List.take_eq_take]
      simp only [List.length_drop]
      omega
    · have hk : min offset (files.length : Int) = (files.length : Int) :=
        min_eq_right (le_of_lt hcase)
      rw [hk]
      have hd1 : files.drop ((files.length : Int)).toNat = [] := by
        apply List.drop_eq_nil_of_le
        omega
      have hd2 : files.drop offset.toNat = [] := by
        apply List.drop_eq_nil_of_le
        omega
      rw [hd1, hd2]
      simp

/-- C8, witness: a negative offset of -3 acts as offset 0, and offset 1 with
limit 5 takes the clipped slice. -/
theorem C8_witness :
    paginateFiles [demoUpload "a" 1] (-3) 5 =
      paginateFiles [demoUpload "a" 1] 0 5 ∧
    paginateFiles [demoUpload "a" 1, demoUpload "b" 2, demoUpload "c" 3] 1 5 =
      ([demoUpload "a" 1, demoUpload "b" 2, demoUpload "c" 3].drop
        ((1 : Int)).toNat).take ((5 : Int)).toNat :=
  ⟨(C8_paginate_amended _ _ _).1 (by decide),
   (C8_paginate_amended _ _ _).2 (by decide) (by decide)⟩

/-! ## Claim C5 -/

/-- C5.  The four validations run in the fixed order missing-file, oversized
(strictly more than `200 * 1024 * 1024` bytes), bad-extension (name does not
end in `.csv` case-insensitively), bad-content; the first failing check
determines the raised error regardless of the later checks — in particular an
oversized file is reported `oversized` whatever its name or content, and a
badly named one `badExtension` whatever its content. -/
theorem C5_validation_order (f : JSFile) (db : Database) (store rnd : String) :
    (uploadFile none db store rnd).fst = .error .missingFile ∧
    (f.size > maxFileSize →
      (uploadFile (some f) db store rnd).fst = .error .oversized) ∧
    (f.size ≤ maxFileSize → extOk f.name = false →
      (uploadFile (some f) db store rnd).fst = .error .badExtension) ∧
    (f.size ≤ maxFileSize → extOk f.name = true →
      csvFormatTest f.content.toList = false →
      (uploadFile (some f) db store rnd).fst = .error .badContent) := by
  refine ⟨rfl, ?_, ?_, ?_⟩
  · intro h
    simp only [uploadFile]
    rw [if_pos h]
  · intro hsz hext
    simp only [uploadFile]
    rw [if_neg (by omega : ¬ f.size > maxFileSize)]
    rw [if_pos (by simp [hext])]
  · intro hsz hext hct
    simp only [uploadFile]
    rw [if_neg (by omega : ¬ f.size > maxFileSize)]
    rw [if_neg (by simp [hext])]
    rw [if_pos (by simp only [Bool.not_eq_true']; exact hct)]

/-- C5, witness: a missing file, a 300 MiB file with a valid name and content,
a `.txt` file with valid content, and a `.csv` file whose content has no
comma, each raise their own error. -/
theorem C5_witness :
    (uploadFile none [] "csv-store" "0.abc").fst = .error .missingFile ∧
    (uploadFile (some { demoFile with size := 300 * 1024 * 1024 }) []
      "csv-store" "0.abc").fst = .error .oversized ∧
    (uploadFile (some { demoFile with name := "data.txt" }) []
      "csv-store" "0.abc").fst = .error .badExtension ∧
    (uploadFile (some { demoFile with content := "nocomma" }) []
      "csv-store" "0.abc").fst = .error .badContent :=
  ⟨(C5_validation_order demoFile [] "csv-store" "0.abc").1,
   (C5_validation_order _ [] "csv-store" "0.abc").2.1 (by decide),
   (C5_validation_order _ [] "csv-store" "0.abc").2.2.1 (by decide) (by decide),
   (C5_validation_order _ [] "csv-store" "0.abc").2.2.2 (by decide) (by decide)
     (by decide)⟩

/-! ## Claim C10 -/

/-- C10.  Whenever `uploadFile` rejects with one of the four validation errors
(missing-file, oversized, bad-extension, bad-content), the database state is
returned unchanged: all four checks run before the store is opened, so a
failed upload performs no durable write — not even the upgrade's store
creation. -/
theorem C10_failed_upload_preserves_store (file : Option JSFile)
    (db : Database) (store rnd : String) (e : UploadError) :
    (uploadFile file db store rnd).fst = .error e →
    (e = .missingFile ∨ e = .oversized ∨ e = .badExtension ∨
      e = .badContent) →
    (uploadFile file db store rnd).snd = db := by
  intro he hval
  cases file with
  | none => rfl
  | some f =>
      simp only [uploadFile] at he ⊢
      by_cases h1 : f.size > maxFileSize
      · rw [if_pos h1]
      · rw [if_neg h1] at he ⊢
        by_cases h2 : (!extOk f.name) = true
        · rw [if_pos h2]
        · rw [if_neg h2] at he ⊢
          by_cases h3 : (!csvFormatTest f.content.toList) = true
          · rw [if_pos h3]
          · rw [if_neg h3] at he ⊢
            exfalso
            split at he
            · simp only [Except.error.injEq] at he
              rcases hval with h | h | h | h <;> rw [← he] at h <;> simp at h
            · simp at he

/-- C10, witness: rejecting a missing file and rejecting a `.txt` file both
leave a non-empty database untouched. -/
theorem C10_witness :
    (uploadFile none demoDb1 "csv-store" "0.abc").snd = demoDb1 ∧
    (uploadFile (some { demoFile with name := "data.txt" }) demoDb1
      "csv-store" "0.abc").snd = demoDb1 :=
  ⟨C10_failed_upload_preserves_store none demoDb1 "csv-store" "0.abc"
     .missingFile (by decide) (Or.inl rfl),
   C10_failed_upload_preserves_store _ demoDb1 "csv-store" "0.abc"
     .badExtension (by decide) (Or.inr (Or.inr (Or.inl rfl)))⟩

/-! ## Claim C2 -/

/-- C2, counterexample.  With content `"a,b\nxxx"` the line `"xxx"` has no
comma at all, so the claim's criterion ("at least one line without a proper
comma") demands the bad-content error; but the multiline regex `test` only
asks whether SOME line matches `.+,[^,]+`, the first line `"a,b"` does, and
the upload sails past the check (it succeeds).  The claimed equivalence is
therefore false at this input. -/
theorem C2_counterexample :
    ¬ (((uploadFile (some badLineFile) [] "csv-store" "0.abc").fst =
          Except.error UploadError.badContent) ↔
        claimBadContent badLineFile.content = true) := by decide

/-- C2, amended.  For a file passing the size and extension checks,
`uploadFile` raises the bad-content error if and only if NO line of the
content contains a comma preceded (on that line) by at least one character
and followed by at least one non-comma character: the structural check is an
existential test over lines — one well-formed line lets any file through —
not the universal every-line check the claim states. -/
theorem C2_badContent_iff (f : JSFile) (db : Database) (store rnd : String)
    (hsz : f.size ≤ maxFileSize) (hext : extOk f.name = true) :
    (uploadFile (some f) db store rnd).fst = .error .badContent ↔
      ¬ claimMatchableContent f.content.toList := by
  simp only [uploadFile]
  rw [if_neg (by omega : ¬ f.size > maxFileSize)]
  rw [if_neg (by simp [hext])]
  by_cases hct : csvFormatTest f.content.toList = true
  · rw [if_neg (by rw [Bool.not_eq_true', hct]; simp)]
    constructor
    · intro habs
      exfalso
      split at habs
      · simp at habs
      · simp at habs
    · intro hnc
      exact absurd ((csvFormatTest_iff _).mp hct) hnc
  · rw [if_pos (by rw [Bool.not_eq_true']; exact Bool.eq_false_iff.mpr hct)]
    constructor
    · intro _
      intro hcm
      exact hct ((csvFormatTest_iff _).mpr hcm)
    · intro _
      rfl

/-- C2, witness: a one-line comma-free content is rejected as bad content,
matching the absence of any well-formed line. -/
theorem C2_witness :
    (uploadFile (some { demoFile with content := "nocomma" }) [] "csv-store"
      "0.abc").fst = .error .badContent ↔
      ¬ claimMatchableContent ("nocomma" : String).toList :=
  C2_badContent_iff { demoFile with content := "nocomma" } [] "csv-store"
    "0.abc" (by decide) (by decide)

/-! ## Claim C4 -/

/-- C4, counterexample.  `fetchFileByName` CAN throw: on a database where the
store does not yet exist (here the empty database, in which no name has a
stored record), its own upgrade path creates the store WITHOUT the
`nameIndex`, and the subsequent `index('nameIndex')` access throws
NotFoundError instead of returning the not-found result. -/
theorem C4_counterexample :
    hasRecordNamed ([] : Database) "csv-store" "a.csv" = false ∧
    (fetchFileByName "a.csv" ([] : Database) "csv-store").fst =
      Except.error LookupError.notFoundError := by decide

/-- C4, amended.  An empty (falsy) name returns the not-found result at once,
independent of — and without touching — the store; and when the store exists
with its `nameIndex` (as the upload path creates it), any name carried by no
record yields the not-found result with the database unchanged, without
throwing.  But when the store is missing or lacks the index,
`fetchFileByName`'s own upgrade path creates it indexless and the index
access throws NotFoundError (see the counterexample). -/
theorem C4_lookup_amended (name store : String) (db : Database)
    (s : ObjectStore) :
    (name = "" → fetchFileByName name db store = (.ok none, db)) ∧
    (findStore db store = some s → s.hasNameIndex = true →
      (∀ r ∈ s.records, r.snd.name ≠ name) →
      fetchFileByName name db store = (.ok none, db)) := by
  constructor
  · intro h
    simp only [fetchFileByName]
    rw [if_pos (by simp [h])]
  · intro hfs hidx hnone
    simp only [fetchFileByName]
    by_cases hne : (name == "") = true
    · rw [if_pos hne]
    · rw [if_neg hne]
      have hsnd : (openStore db store false).snd = s := by
        rw [openStore_of_found hfs false]
      have hfst : (openStore db store false).fst = db := by
        rw [openStore_of_found hfs false]
      rw [hsnd, hfst]
      rw [if_neg (by simp [hidx])]
      have hfind : s.records.find? (fun r => r.snd.name == name) = none :=
        List.find?_eq_none.mpr (fun r hr => by simpa using hnone r hr)
      rw [hfind]
      rfl

/-- C4, witness: the empty name short-circuits, and an unregistered name on a
properly indexed one-record store returns not-found, both leaving the
database unchanged. -/
theorem C4_witness :
    fetchFileByName ""
      [("csv-store", ⟨true, [("a.csv", demoUpload "a.csv" 1)]⟩)]
      "csv-store" =
      (.ok none, [("csv-store", ⟨true, [("a.csv", demoUpload "a.csv" 1)]⟩)]) ∧
    fetchFileByName "b.csv"
      [("csv-store", ⟨true, [("a.csv", demoUpload "a.csv" 1)]⟩)]
      "csv-store" =
      (.ok none, [("csv-store", ⟨true, [("a.csv", demoUpload "a.csv" 1)]⟩)]) :=
  ⟨(C4_lookup_amended "" "csv-store" _
      ⟨true, [("a.csv", demoUpload "a.csv" 1)]⟩).1 rfl,
   (C4_lookup_amended "b.csv" "csv-store" _
      ⟨true, [("a.csv", demoUpload "a.csv" 1)]⟩).2 rfl rfl (by decide)⟩

/-! ## Claim C7 -/

/-- C7.  For any two records with distinct numeric values on the sort field,
sorting the pair with `sortOrder = "desc"` yields exactly the reversal of
sorting it with `sortOrder = "asc"`. -/
theorem C7_sort_reversal (a b : Upload) (sortField : String) (x y : Int)
    (ha : getField a sortField = JSValue.num x)
    (hb : getField b sortField = JSValue.num y) (hxy : x ≠ y) :
    sortFiles [a, b] sortField "desc" =
      (sortFiles [a, b] sortField "asc").reverse := by
  rw [sortFiles_pair, sortFiles_pair]
  rcases lt_or_gt_of_ne hxy with h | h
  · have h1 : jsLt (getField a sortField) (getField b sortField) = true := by
      rw [ha, hb]
      simp [jsLt, h]
    have h2 : jsLt (getField b sortField) (getField a sortField) = false := by
      rw [ha, hb]
      simp [jsLt]
      omega
    simp [compareFiles, h1, h2]
  · have h1 : jsLt (getField a sortField) (getField b sortField) = false := by
      rw [ha, hb]
      simp [jsLt]
      omega
    have h2 : jsLt (getField b sortField) (getField a sortField) = true := by
      rw [ha, hb]
      simp [jsLt]
      omega
    simp [compareFiles, h1, h2]

/-- C7, witness: two records of sizes 41 and 55 sorted by `"size"` descending
are the reversal of the ascending result. -/
theorem C7_witness :
    sortFiles [demoUpload "a.csv" 41, demoUpload "b.csv" 55] "size" "desc" =
      (sortFiles [demoUpload "a.csv" 41, demoUpload "b.csv" 55] "size"
        "asc").reverse :=
  C7_sort_reversal (demoUpload "a.csv" 41) (demoUpload "b.csv" 55) "size"
    41 55 (by decide) (by decide) (by decide)

/-! ## Claim C6 -/

/-- C6.  A file of size at most 200 MiB, with a `.csv` extension
(case-insensitively) and content passing the comma-structure check, uploaded
over a store holding no record under that file's name, succeeds: the promise
resolves with the record built from the file, whose `name` is the original
filename and whose `annotationCount` is 0. -/
theorem C6_upload_fresh (f : JSFile) (db : Database) (store rnd : String)
    (hsz : f.size ≤ maxFileSize) (hext : extOk f.name = true)
    (hct : csvFormatTest f.content.toList = true)
    (hno : hasRecordNamed db store f.name = false) :
    (uploadFile (some f) db store rnd).fst = Except.ok (mkUpload f) ∧
    (mkUpload f).name = f.name ∧ (mkUpload f).annotationCount = 0 := by
  refine ⟨?_, rfl, rfl⟩
  simp only [uploadFile]
  rw [if_neg (by omega : ¬ f.size > maxFileSize)]
  rw [if_neg (by simp [hext])]
  rw [if_neg (by rw [Bool.not_eq_true', hct]; simp)]
  cases hfs : findStore db store with
  | none =>
      have hsnd : (openStore db store true).snd = ⟨true, []⟩ := by
        unfold openStore
        rw [hfs]
      rw [hsnd]
      rw [if_neg (by simp [storeGet])]
      rw [storeAdd_of_no_conflict (by simp) (by simp)]
  | some s =>
      have hsnd : (openStore db store true).snd = s := by
        rw [openStore_of_found hfs true]
      rw [hsnd]
      unfold hasRecordNamed at hno
      rw [hfs] at hno
      obtain ⟨hk, hn⟩ := Bool.or_eq_false_iff.mp hno
      have hfind : s.records.find? (fun r => r.fst == f.name) = none := by
        apply List.find?_eq_none.mpr
        intro r hr hcontra
        have hany : s.records.any (fun r => r.fst == f.name) = true :=
          List.any_eq_true.mpr ⟨r, hr, hcontra⟩
        rw [hk] at hany
        exact Bool.false_ne_true hany
      have hsg : storeGet s f.name = none := by
        simp [storeGet, hfind]
      rw [if_neg (by simp [hsg])]
      have hk' : s.records.any (fun r => r.fst == (mkUpload f).name) = false :=
        hk
      have hn' : s.records.any
          (fun r => r.snd.name == (mkUpload f).name) = false := hn
      rw [storeAdd_of_no_conflict hk' hn']

/-- C6, witness: uploading the demo CSV into an empty database succeeds with
the original name and a zero annotation count. -/
theorem C6_witness :
    (uploadFile (some demoFile) [] "csv-store" "0.abc").fst =
      Except.ok (mkUpload demoFile) ∧
    (mkUpload demoFile).name = demoFile.name ∧
    (mkUpload demoFile).annotationCount = 0 :=
  C6_upload_fresh demoFile [] "csv-store" "0.abc" (by decide) (by decide)
    (by decide) (by decide)

/-! ## Claim C3 -/

/-- C3, counterexample.  `Math.random()` can return 0, whose base-36
rendering is the string `"0"`; `substring(2, 5)` of it is EMPTY, so the
second of two same-named uploads is stored as `"speed.csv-"` — the names are
still distinct, but the suffix after the hyphen is not 3 characters long, so
the claimed shape `<original>-[0-9a-z]{3}` fails. -/
theorem C3_counterexample :
    isRandomBase36Repr "0" = true ∧
    ((uploadFile (some demoFile) (uploadFile (some demoFile) [] "csv-store"
        "0").snd "csv-store" "0").fst).toOption.map Upload.name =
      some "speed.csv-" ∧
    hasThreeCharSuffix "speed.csv" "speed.csv-" = false := by decide

/-- C3, amended.  When two files with identical names are uploaded in
sequence and both uploads succeed, the stored names are distinct, and the
second record's name is the original name, a hyphen, and a suffix of AT MOST
3 lowercase base-36 characters — exactly 3 whenever the random draw's base-36
rendering has at least 3 fraction digits, but shorter for draws such as 0
whose rendering is shorter. -/
theorem C3_rename_amended (f1 f2 : JSFile) (db db1 db2 : Database)
    (store rnd1 rnd2 : String) (u1 u2 : Upload)
    (hname : f1.name = f2.name)
    (hrnd : isRandomBase36Repr rnd2 = true)
    (h1 : uploadFile (some f1) db store rnd1 = (.ok u1, db1))
    (h2 : uploadFile (some f2) db1 store rnd2 = (.ok u2, db2)) :
    u1.name ≠ u2.name ∧
    u2.name = f2.name ++ "-" ++ substring25 rnd2 ∧
    (substring25 rnd2).toList.length ≤ 3 ∧
    (∀ c ∈ (substring25 rnd2).toList, isBase36 c = true) := by
  obtain ⟨hu1, s2, hadd1, hdb1⟩ := uploadFile_ok_inv h1
  have hfs1 : findStore (openStore db store true).fst store =
      some (openStore db store true).snd := findStore_openStore db store true
  have hdb1find : findStore db1 store = some s2 := by
    rw [hdb1]
    exact findStore_updateStore_self (by rw [hfs1]; rfl)
  obtain ⟨hu2, s3, hadd2, hdb2⟩ := uploadFile_ok_inv h2
  have hsnd2 : (openStore db1 store true).snd = s2 := by
    rw [openStore_of_found hdb1find true]
  rw [hsnd2] at hu2 hadd2
  obtain ⟨hs2, hnokey1⟩ := storeAdd_some_inv hadd1
  have hkey : ∃ r ∈ s2.records, r.fst = f2.name := by
    rw [hs2]
    by_cases hren :
        (storeGet (openStore db store true).snd f1.name).isSome = true
    · obtain ⟨r, hr, hrk⟩ := storeGet_isSome_iff.mp hren
      exact ⟨r, mem_insertRecord.mpr (Or.inr hr), by rw [hrk, hname]⟩
    · have hu1' : u1 = mkUpload f1 := by rw [hu1, if_neg hren]
      refine ⟨(u1.name, u1), mem_insertRecord.mpr (Or.inl rfl), ?_⟩
      rw [hu1']
      exact hname
  have hget2 : (storeGet s2 f2.name).isSome = true :=
    storeGet_isSome_iff.mpr hkey
  have hu2' : u2 =
      { mkUpload f2 with name := f2.name ++ "-" ++ substring25 rnd2 } := by
    rw [hu2, if_pos hget2]
  obtain ⟨hs3, hnokey2⟩ := storeAdd_some_inv hadd2
  have hmem1 : (u1.name, u1) ∈ s2.records := by
    rw [hs2]
    exact mem_insertRecord.mpr (Or.inl rfl)
  refine ⟨?_, ?_, ?_, ?_⟩
  · intro hcontra
    have hany : s2.records.any (fun r => r.fst == u2.name) = true :=
      List.any_eq_true.mpr ⟨(u1.name, u1), hmem1, by simp [hcontra]⟩
    rw [hnokey2] at hany
    exact Bool.false_ne_true hany
  · rw [hu2']
  · show ((rnd2.toList.drop 2).take 3).length ≤ 3
    simp [List.length_take]
  · intro c hc
    have hc' : c ∈ (rnd2.toList.drop 2).take 3 := hc
    exact repr_drop2_base36 hrnd c (List.mem_of_mem_take hc')

/-- C3, witness: uploading the demo CSV twice (random renderings `"0.abc"`
then `"0.xyz"`) stores distinct names, the second one `"speed.csv-xyz"` with
a 3-character base-36 suffix. -/
theorem C3_witness :
    (mkUpload demoFile).name ≠ demoUpload2.name ∧
    demoUpload2.name = demoFile.name ++ "-" ++ substring25 "0.xyz" ∧
    (substring25 "0.xyz").toList.length ≤ 3 ∧
    (∀ c ∈ (substring25 "0.xyz").toList, isBase36 c = true) :=
  C3_rename_amended demoFile demoFile [] demoDb1 demoDb2 "csv-store" "0.abc"
    "0.xyz" (mkUpload demoFile) demoUpload2 rfl (by decide) (by decide)
    (by decide)
